import Mathlib

/-!
Verification of the WikiracingAgent path-validation core.

The embedded code is the notebook `01_naive_agent.ipynb`:

* `get_outbound_links` — a `functools.cache`-memoized lookup of a page's
  outbound links via the `wikipedia` library; a `PageError` is caught and
  re-raised as `ModelRetry(str(e))`.  We model the external resolver as a
  fixed function `resolve : String → Except String (List String)`
  (`.error msg` is a `PageError` carrying message `msg`, the only failure
  mode of the resolver interface in the base model).  The `functools.cache`
  is an association list threaded through every call; note that
  `functools.cache` does NOT memoize a raised exception, so an entry is
  stored only when the lookup succeeds.  Each embedded operation also
  returns a log of the external calls it performed, as pairs
  `(title, succeeded)`, so that call-counting claims can be stated.

* `validate_path` — for every page title in a `PathFoundResult` it adds an
  edge `(page, link)` to a fresh `networkx.DiGraph` for each outbound link
  of that page, then checks `is_simple_path(g, pages)`; on failure it
  raises `ModelRetry("Path is not valid")`.  A raised `ModelRetry` is the
  retryable rejection; returning `data` is acceptance.

* `is_simple_path` is translated from networkx (`simple_paths.py`):
  empty list → `False`; singleton `[x]` → `x in G`; otherwise all nodes in
  the graph, no repeated nodes, and every adjacent pair joined by an edge.
  A `DiGraph` mutated only by `add_edge` is exactly its edge list: its node
  set is the set of edge endpoints.
-/

namespace Wikiracing

/-- The agent's result type: `Union[PathFoundResult, NoPathFoundResult]`.
`pathFound pages` is `PathFoundResult(pages_by_title=pages)`. -/
inductive ResultType where
  | pathFound (pages_by_title : List String)
  | noPathFound
deriving DecidableEq

/-- Outcome of `validate_path`: `accepted d` models returning `data`,
`rejected r` models raising `ModelRetry(r)` (a retryable rejection). -/
inductive ValidateResult where
  | accepted (data : ResultType)
  | rejected (reason : String)
deriving DecidableEq

/-- The `functools.cache` of `get_outbound_links`, keyed by the exact input
title string. -/
abbrev Cache := List (String × List String)

/-- Cache lookup (first matching key). -/
def lookup (c : Cache) (t : String) : Option (List String) :=
  match c with
  | [] => none
  | (k, v) :: rest => if k == t then some v else lookup rest t

/-- `n in G` for a `DiGraph` populated only by `add_edge`: `n` is an
endpoint of some edge. -/
def hasNode (es : List (String × String)) (n : String) : Bool :=
  es.any (fun e => e.1 == n || e.2 == n)

/-- `v in G[u]`: the graph has a directed edge `(u, v)`. -/
def hasEdge (es : List (String × String)) (u v : String) : Bool :=
  es.any (fun e => e.1 == u && e.2 == v)

/-- `len(set(nodes)) == len(nodes)`: no element repeats. -/
def nodupB : List String → Bool
  | [] => true
  | x :: xs => !(xs.contains x) && nodupB xs

/-- `pairwise(nodes)`: the list of adjacent pairs. -/
def pairwiseEdges : List String → List (String × String)
  | u :: v :: rest => (u, v) :: pairwiseEdges (v :: rest)
  | _ => []

/-- networkx `is_simple_path(G, nodes)`, translated clause for clause. -/
def is_simple_path (es : List (String × String)) (nodes : List String) : Bool :=
  match nodes with
  | [] => false
  | [x] => hasNode es x
  | _ =>
    nodes.all (hasNode es) && nodupB nodes &&
      (pairwiseEdges nodes).all (fun e => hasEdge es e.1 e.2)

/-- `get_outbound_links(t)` with the `functools.cache` made explicit.
Returns the result (`.ok links`, or `.error msg` for the `ModelRetry`
raised on a `PageError`), the updated cache, and the log of external
resolver calls made (`(title, succeeded)`).  On a cache hit no external
call happens; on a miss the resolver is called, and the entry is stored
only when the call succeeds (`functools.cache` does not cache a raised
exception). -/
def get_outbound_links (resolve : String → Except String (List String))
    (c : Cache) (t : String) :
    Except String (List String) × Cache × List (String × Bool) :=
  match lookup c t with
  | some links => (.ok links, c, [])
  | none =>
    match resolve t with
    | .ok links => (.ok links, (t, links) :: c, [(t, true)])
    | .error msg => (.error msg, c, [(t, false)])

/-- The edge-population loop of `validate_path`: for every page of the
candidate, in order, fetch its outbound links and add an edge to each.
A raised `ModelRetry` from `get_outbound_links` aborts the loop at once
(`.error msg`). -/
def buildGraph (resolve : String → Except String (List String)) :
    List String → Cache →
      Except String (List (String × String)) × Cache × List (String × Bool)
  | [], c => (.ok [], c, [])
  | p :: rest, c =>
    match get_outbound_links resolve c p with
    | (.error msg, c1, log1) => (.error msg, c1, log1)
    | (.ok links, c1, log1) =>
      match buildGraph resolve rest c1 with
      | (.error msg, c2, log2) => (.error msg, c2, log1 ++ log2)
      | (.ok es, c2, log2) =>
        (.ok (links.map (fun l => (p, l)) ++ es), c2, log1 ++ log2)

/-- `validate_path(data)`: for a `PathFoundResult`, build the link graph
and check `is_simple_path`; raise `ModelRetry("Path is not valid")` when
the check fails; for any other result, return `data` unchanged. -/
def validate_path (resolve : String → Except String (List String))
    (c : Cache) (data : ResultType) :
    ValidateResult × Cache × List (String × Bool) :=
  match data with
  | .noPathFound => (.accepted data, c, [])
  | .pathFound pages =>
    match buildGraph resolve pages c with
    | (.error msg, c1, log) => (.rejected msg, c1, log)
    | (.ok es, c1, log) =>
      if is_simple_path es pages then (.accepted data, c1, log)
      else (.rejected "Path is not valid", c1, log)

/-- A sequence of `validate_path` calls within one process lifetime,
threading the shared `functools.cache` and concatenating the external-call
logs. -/
def runValidations (resolve : String → Except String (List String)) :
    List ResultType → Cache → Cache × List (String × Bool)
  | [], c => (c, [])
  | d :: ds, c =>
    match validate_path resolve c d with
    | (_, c1, log1) =>
      match runValidations resolve ds c1 with
      | (c2, log2) => (c2, log1 ++ log2)

/-! Spec-level helper functions used to state the claims. -/

/-- The resolved outbound-link set of `t` (empty when `t` does not
resolve; used only where resolution is known to succeed). -/
def linksOf (resolve : String → Except String (List String)) (t : String) :
    List String :=
  match resolve t with
  | .ok l => l
  | .error _ => []

/-- `b` is a member of the link set the resolver returns for `a`. -/
def linkedB (resolve : String → Except String (List String)) (a b : String) :
    Bool :=
  match resolve a with
  | .ok l => l.contains b
  | .error _ => false

/-- The edges `validate_path` installs for candidate `P` when every page
of `P` resolves: one edge `(p, l)` for each `p` in `P` and each `l` in
`p`'s link set, in loop order. -/
def pathEdges (resolve : String → Except String (List String)) :
    List String → List (String × String)
  | [] => []
  | p :: rest => (linksOf resolve p).map (fun l => (p, l)) ++ pathEdges resolve rest

/-- Every cache entry agrees with the resolver: the invariant of caches
reachable from the empty cache with a fixed resolver. -/
def CacheConsistent (resolve : String → Except String (List String))
    (c : Cache) : Prop :=
  ∀ p l, (p, l) ∈ c → resolve p = .ok l

/-- Number of external resolver calls for title `t` in a call log. -/
def callCount (t : String) (log : List (String × Bool)) : Nat :=
  log.countP (fun e => e.1 == t)

/-- Number of successful external resolver calls for title `t`. -/
def successCount (t : String) (log : List (String × Bool)) : Nat :=
  log.countP (fun e => e.1 == t && e.2)

/-- `t` has a populated cache entry. -/
def inCache (c : Cache) (t : String) : Bool :=
  (lookup c t).isSome

/-! ### Extended model: the resolver can raise exceptions other than `PageError`

The `wikipedia` library can raise exceptions that are not `PageError`
(e.g. `DisambiguationError` for an ambiguous title); the `try/except` in
`get_outbound_links` catches `wikipedia.exceptions.PageError` only, so any
other exception propagates out of the tool and out of `validate_path`
uncaught.  This model keeps that distinction. -/

/-- Outcome of one call into the `wikipedia` library. -/
inductive WikiOutcome where
  | ok (links : List String)
  /-- `wikipedia.exceptions.PageError`, caught and turned into `ModelRetry`. -/
  | pageError (msg : String)
  /-- Any other exception (e.g. `DisambiguationError`), not caught. -/
  | otherExn (msg : String)
deriving DecidableEq

/-- Outcome of `validate_path` in the extended model. -/
inductive ValidateOutcome where
  | accepted (data : ResultType)
  /-- `ModelRetry` raised: a retryable rejection. -/
  | rejected (reason : String)
  /-- An exception escaped `validate_path` unhandled. -/
  | uncaught (msg : String)
deriving DecidableEq

/-- `get_outbound_links` with the exception behaviour of the source kept:
only a `PageError` is converted into `ModelRetry`; any other exception
escapes (and, like `PageError`, is not memoized by `functools.cache`). -/
def get_outbound_links_exn (wiki : String → WikiOutcome) (c : Cache)
    (t : String) : WikiOutcome × Cache :=
  match lookup c t with
  | some links => (.ok links, c)
  | none =>
    match wiki t with
    | .ok links => (.ok links, (t, links) :: c)
    | .pageError msg => (.pageError msg, c)
    | .otherExn msg => (.otherExn msg, c)

/-- The edge-population loop of `validate_path` in the extended model. -/
def buildGraph_exn (wiki : String → WikiOutcome) :
    List String → Cache →
      (Except (String × Bool) (List (String × String))) × Cache
  | [], c => (.ok [], c)
  | p :: rest, c =>
    match get_outbound_links_exn wiki c p with
    | (.pageError msg, c1) => (.error (msg, true), c1)
    | (.otherExn msg, c1) => (.error (msg, false), c1)
    | (.ok links, c1) =>
      match buildGraph_exn wiki rest c1 with
      | (.error e, c2) => (.error e, c2)
      | (.ok es, c2) => (.ok (links.map (fun l => (p, l)) ++ es), c2)

/-- `validate_path` in the extended model: a `PageError` becomes a
retryable `ModelRetry` rejection, but any other resolver exception
escapes the validator uncaught. -/
def validate_path_exn (wiki : String → WikiOutcome) (c : Cache)
    (data : ResultType) : ValidateOutcome × Cache :=
  match data with
  | .noPathFound => (.accepted data, c)
  | .pathFound pages =>
    match buildGraph_exn wiki pages c with
    | (.error (msg, true), c1) => (.rejected msg, c1)
    | (.error (msg, false), c1) => (.uncaught msg, c1)
    | (.ok es, c1) =>
      if is_simple_path es pages then (.accepted data, c1)
      else (.rejected "Path is not valid", c1)

/-! ### Concrete resolver states used by witnesses and counterexamples -/

/-- The resolver state of the spec scenarios: Lindsay Lohan links to
Donald Trump, who links to Barack Obama, whose page has no outbound
links; every other title fails to resolve with message `"missing"`. -/
def resolverDemo : String → Except String (List String) := fun t =>
  if t == "Lindsay Lohan" then .ok ["Donald Trump"]
  else if t == "Donald Trump" then .ok ["Barack Obama"]
  else if t == "Barack Obama" then .ok []
  else .error "missing"

/-- A resolver where `"A"` and `"B"` link to each other. -/
def resolverMutual : String → Except String (List String) := fun t =>
  if t == "A" then .ok ["B"]
  else if t == "B" then .ok ["A"]
  else .error "missing"

/-- A resolver where `"A"` resolves with an empty link set. -/
def resolverEmptyLinks : String → Except String (List String) := fun t =>
  if t == "A" then .ok [] else .error "missing"

/-- A resolver where `"A"` links to `"B"` but `"B"` fails to resolve. -/
def resolverLastFails : String → Except String (List String) := fun t =>
  if t == "A" then .ok ["B"] else .error "B does not match any pages"

/-- A resolver where every title fails to resolve. -/
def resolverPageError : String → Except String (List String) := fun _ =>
  .error "page does not match any pages"

/-- An extended-model resolver where `"Mercury"` raises a
`DisambiguationError` (an exception that is not a `PageError`). -/
def wikiDisambig : String → WikiOutcome := fun t =>
  if t == "Mercury" then .otherExn "DisambiguationError: Mercury may refer to multiple pages"
  else .ok ["Mercury"]

/-- The resolver succeeds on `t`. -/
def resolvesOk (resolve : String → Except String (List String))
    (t : String) : Bool :=
  match resolve t with
  | .ok _ => true
  | .error _ => false

/-! ### Helper lemmas about the graph predicates -/

lemma lookup_mem : ∀ {c : Cache} {t : String} {l : List String},
    lookup c t = some l → (t, l) ∈ c
  | [], t, l, h => by simp [lookup] at h
  | (k, v) :: rest, t, l, h => by
    rw [lookup] at h
    by_cases hk : (k == t) = true
    · rw [if_pos hk] at h
      obtain rfl : k = t := beq_iff_eq.mp hk
      obtain rfl : v = l := by injection h
      exact List.mem_cons_self _ _
    · rw [if_neg hk] at h
      exact List.mem_cons_of_mem _ (lookup_mem h)

lemma inCache_cons {k : String} {v : List String} {c : Cache} {u : String} :
    inCache ((k, v) :: c) u = ((k == u) || inCache c u) := by
  by_cases h : (k == u) = true <;> simp [inCache, lookup, h]

lemma hasEdge_iff_mem {es : List (String × String)} {u v : String} :
    hasEdge es u v = true ↔ (u, v) ∈ es := by
  simp only [hasEdge, List.any_eq_true, Bool.and_eq_true, beq_iff_eq]
  constructor
  · rintro ⟨⟨a, b⟩, hmem, rfl, rfl⟩
    exact hmem
  · intro h
    exact ⟨(u, v), h, rfl, rfl⟩

lemma hasNode_of_mem_left {es : List (String × String)} {u v : String}
    (h : (u, v) ∈ es) : hasNode es u = true := by
  simp only [hasNode, List.any_eq_true]
  exact ⟨(u, v), h, by simp⟩

lemma hasNode_of_mem_right {es : List (String × String)} {u v : String}
    (h : (u, v) ∈ es) : hasNode es v = true := by
  simp only [hasNode, List.any_eq_true]
  exact ⟨(u, v), h, by simp⟩

lemma nodupB_iff : ∀ {P : List String}, nodupB P = true ↔ P.Nodup
  | [] => by simp [nodupB]
  | x :: xs => by
    simp [nodupB, List.nodup_cons, nodupB_iff (P := xs), List.elem_iff,
      Bool.and_eq_true]

lemma pairwiseEdges_all_iff {f : String × String → Bool} :
    ∀ {P : List String},
      ((pairwiseEdges P).all f = true) ↔
        List.Chain' (fun a b => f (a, b) = true) P
  | [] => by simp [pairwiseEdges]
  | [x] => by simp [pairwiseEdges]
  | a :: b :: rest => by
    rw [pairwiseEdges, List.all_cons, List.chain'_cons, Bool.and_eq_true,
      pairwiseEdges_all_iff (P := b :: rest)]

lemma get?_pair_mem_pairwiseEdges :
    ∀ (P : List String) (i : Nat) {u v : String},
      P.get? i = some u → P.get? (i + 1) = some v → (u, v) ∈ pairwiseEdges P
  | [], i, u, v, hu, _ => by simp at hu
  | [a], i, u, v, hu, hv => by
    cases i with
    | zero => simp at hv
    | succ j => simp at hu
  | a :: b :: rest, 0, u, v, hu, hv => by
    obtain rfl : a = u := by simpa using hu
    obtain rfl : b = v := by simpa using hv
    exact List.mem_cons_self _ _
  | a :: b :: rest, i + 1, u, v, hu, hv => by
    rw [pairwiseEdges]
    exact List.mem_cons_of_mem _
      (get?_pair_mem_pairwiseEdges (b :: rest) i (by simpa using hu)
        (by simpa using hv))

lemma chain'_imp_of_mem {R S : String → String → Prop} :
    ∀ {P : List String}, List.Chain' R P →
      (∀ a b, a ∈ P → b ∈ P → R a b → S a b) → List.Chain' S P
  | [], _, _ => List.chain'_nil
  | [x], _, _ => List.chain'_singleton x
  | a :: b :: rest, h, himp => by
    rw [List.chain'_cons] at h ⊢
    refine ⟨himp a b (by simp) (by simp) h.1, chain'_imp_of_mem h.2 ?_⟩
    intro x y hx hy hr
    exact himp x y (List.mem_cons_of_mem _ hx) (List.mem_cons_of_mem _ hy) hr

lemma chain'_hasEdge_all_hasNode {es : List (String × String)} :
    ∀ (P : List String), 2 ≤ P.length →
      List.Chain' (fun a b => hasEdge es a b = true) P →
      ∀ x ∈ P, hasNode es x = true
  | [], h, _, _, _ => by simp at h
  | [x], h, _, _, _ => by simp at h
  | a :: b :: rest, _, hch, x, hx => by
    rw [List.chain'_cons] at hch
    have hab : (a, b) ∈ es := hasEdge_iff_mem.mp hch.1
    rcases List.mem_cons.mp hx with rfl | hx'
    · exact hasNode_of_mem_left hab
    · cases rest with
      | nil =>
        obtain rfl : x = b := by simpa using hx'
        exact hasNode_of_mem_right hab
      | cons d rest' =>
        exact chain'_hasEdge_all_hasNode (b :: d :: rest') (by simp) hch.2 x hx'

lemma linkedB_iff {resolve : String → Except String (List String)}
    {u v : String} : linkedB resolve u v = true ↔ v ∈ linksOf resolve u := by
  unfold linkedB linksOf
  cases resolve u with
  | ok l => exact List.elem_iff
  | error m => simp

lemma mem_pathEdges {resolve : String → Except String (List String)} :
    ∀ {P : List String} {u v : String},
      ((u, v) ∈ pathEdges resolve P) ↔ (u ∈ P ∧ v ∈ linksOf resolve u)
  | [], u, v => by simp [pathEdges]
  | p :: rest, u, v => by
    simp only [pathEdges, List.mem_append, List.mem_map, List.mem_cons,
      mem_pathEdges (P := rest)]
    constructor
    · rintro (⟨l, hl, heq⟩ | ⟨hu, hv⟩)
      · obtain ⟨rfl, rfl⟩ : p = u ∧ l = v := by simpa [Prod.ext_iff] using heq
        exact ⟨Or.inl rfl, hl⟩
      · exact ⟨Or.inr hu, hv⟩
    · rintro ⟨rfl | hu, hv⟩
      · exact Or.inl ⟨v, hv, rfl⟩
      · exact Or.inr ⟨hu, hv⟩

lemma hasEdge_pathEdges {resolve : String → Except String (List String)}
    {P : List String} {u v : String} :
    hasEdge (pathEdges resolve P) u v = true ↔
      (u ∈ P ∧ linkedB resolve u v = true) := by
  rw [hasEdge_iff_mem, mem_pathEdges, linkedB_iff]

lemma is_simple_path_cons_cons {es : List (String × String)} {a b : String}
    {rest : List String} :
    is_simple_path es (a :: b :: rest) =
      ((a :: b :: rest).all (hasNode es) && nodupB (a :: b :: rest) &&
        (pairwiseEdges (a :: b :: rest)).all fun e => hasEdge es e.1 e.2) := rfl

lemma is_simple_path_of_conditions {es : List (String × String)}
    {P : List String} (h2 : 2 ≤ P.length)
    (hall : ∀ x ∈ P, hasNode es x = true) (hnd : P.Nodup)
    (hch : List.Chain' (fun a b => hasEdge es a b = true) P) :
    is_simple_path es P = true := by
  match P, h2 with
  | a :: b :: rest, _ =>
    rw [is_simple_path_cons_cons, Bool.and_eq_true, Bool.and_eq_true]
    exact ⟨⟨List.all_eq_true.mpr hall, nodupB_iff.mpr hnd⟩,
      pairwiseEdges_all_iff.mpr hch⟩

lemma is_simple_path_false_of_dup {es : List (String × String)}
    {P : List String} (h : ¬ P.Nodup) : is_simple_path es P = false := by
  match P with
  | [] => exact absurd List.nodup_nil h
  | [x] => exact absurd (List.nodup_singleton x) h
  | a :: b :: rest =>
    have hnd : nodupB (a :: b :: rest) = false :=
      Bool.eq_false_iff.mpr fun htrue => h (nodupB_iff.mp htrue)
    rw [is_simple_path_cons_cons, hnd]
    simp

lemma is_simple_path_false_of_missing {es : List (String × String)}
    {P : List String} {u v : String}
    (hmem : (u, v) ∈ pairwiseEdges P) (hf : hasEdge es u v = false) :
    is_simple_path es P = false := by
  match P with
  | [] => simp [pairwiseEdges] at hmem
  | [x] => simp [pairwiseEdges] at hmem
  | a :: b :: rest =>
    have hall : (pairwiseEdges (a :: b :: rest)).all
        (fun e => hasEdge es e.1 e.2) = false := by
      refine Bool.eq_false_iff.mpr fun htrue => ?_
      have := List.all_eq_true.mp htrue (u, v) hmem
      simp only at this
      rw [hf] at this
      exact Bool.false_ne_true this
    rw [is_simple_path_cons_cons, hall]
    simp

/-! ### Helper lemmas about the cached resolver and graph construction -/

lemma gol_resolve_of_consistent {resolve : String → Except String (List String)}
    {c : Cache} {t : String} (hc : CacheConsistent resolve c) :
    ∃ c1 log1, get_outbound_links resolve c t = (resolve t, c1, log1) ∧
      CacheConsistent resolve c1 := by
  cases hl : lookup c t with
  | some l =>
    have hres := hc t l (lookup_mem hl)
    exact ⟨c, [], by simp [get_outbound_links, hl, hres], hc⟩
  | none =>
    cases hr : resolve t with
    | ok l =>
      refine ⟨(t, l) :: c, [(t, true)], by simp [get_outbound_links, hl, hr], ?_⟩
      intro p lp hp
      rcases List.mem_cons.mp hp with heq | hmem
      · obtain ⟨rfl, rfl⟩ : p = t ∧ lp = l := by simpa [Prod.ext_iff] using heq
        exact hr
      · exact hc p lp hmem
    | error m =>
      exact ⟨c, [(t, false)], by simp [get_outbound_links, hl, hr], hc⟩

lemma gol_log_mem {resolve : String → Except String (List String)}
    {c : Cache} {t : String} {e : String × Bool} :
    e ∈ (get_outbound_links resolve c t).2.2 → e.1 = t := by
  cases hl : lookup c t with
  | some l => simp [get_outbound_links, hl]
  | none =>
    cases hr : resolve t with
    | ok l =>
      simp only [get_outbound_links, hl, hr, List.mem_singleton]
      rintro rfl
      rfl
    | error m =>
      simp only [get_outbound_links, hl, hr, List.mem_singleton]
      rintro rfl
      rfl

lemma buildGraph_eq_of {resolve : String → Except String (List String)} :
    ∀ (P : List String) (c : Cache), CacheConsistent resolve c →
      (∀ x ∈ P, resolvesOk resolve x = true) →
      ∃ c' log, buildGraph resolve P c = (.ok (pathEdges resolve P), c', log) ∧
        CacheConsistent resolve c'
  | [], c, hc, _ => ⟨c, [], rfl, hc⟩
  | p :: rest, c, hc, hres => by
    obtain ⟨c1, log1, h1, hc1⟩ := gol_resolve_of_consistent (t := p) hc
    obtain ⟨lp, hlp⟩ : ∃ l, resolve p = .ok l := by
      have hp := hres p (by simp)
      unfold resolvesOk at hp
      cases hr : resolve p with
      | ok l => exact ⟨l, rfl⟩
      | error m => rw [hr] at hp; simp at hp
    obtain ⟨c2, log2, h2, hc2⟩ :=
      buildGraph_eq_of rest c1 hc1 fun x hx => hres x (by simp [hx])
    rw [hlp] at h1
    exact ⟨c2, log1 ++ log2, by simp [buildGraph, h1, h2, pathEdges, linksOf, hlp], hc2⟩

lemma buildGraph_ok_char {resolve : String → Except String (List String)} :
    ∀ (P : List String) (c : Cache) {es : List (String × String)} {c' : Cache}
      {log : List (String × Bool)},
      CacheConsistent resolve c →
      buildGraph resolve P c = (.ok es, c', log) →
      es = pathEdges resolve P ∧ ∀ x ∈ P, resolvesOk resolve x = true
  | [], c, es, c', log, _, heq => by
    simp only [buildGraph, Prod.mk.injEq, Except.ok.injEq] at heq
    simp [pathEdges, ← heq.1]
  | p :: rest, c, es, c', log, hc, heq => by
    obtain ⟨c1, log1, h1, hc1⟩ := gol_resolve_of_consistent (t := p) hc
    cases hr : resolve p with
    | error m =>
      rw [hr] at h1
      simp [buildGraph, h1] at heq
    | ok lp =>
      rw [hr] at h1
      rcases hb : buildGraph resolve rest c1 with ⟨r2, c2, log2⟩
      cases r2 with
      | error m2 => simp [buildGraph, h1, hb] at heq
      | ok es2 =>
        simp only [buildGraph, h1, hb, Prod.mk.injEq, Except.ok.injEq] at heq
        obtain ⟨hrest, hall⟩ := buildGraph_ok_char rest c1 hc1 hb
        constructor
        · rw [← heq.1, hrest]
          simp [pathEdges, linksOf, hr]
        · intro x hx
          rcases List.mem_cons.mp hx with rfl | hx'
          · simp [resolvesOk, hr]
          · exact hall x hx'

lemma buildGraph_error_of {resolve : String → Except String (List String)} :
    ∀ (P : List String) (c : Cache), CacheConsistent resolve c →
      ∀ t m, t ∈ P → resolve t = .error m →
      ∃ m' t', t' ∈ P ∧ resolve t' = .error m' ∧
        ∃ c' log, buildGraph resolve P c = (.error m', c', log)
  | [], _, _, t, _, ht, _ => absurd ht (List.not_mem_nil t)
  | p :: rest, c, hc, t, m, ht, hm => by
    obtain ⟨c1, log1, h1, hc1⟩ := gol_resolve_of_consistent (t := p) hc
    cases hr : resolve p with
    | error mp =>
      rw [hr] at h1
      exact ⟨mp, p, by simp, hr, c1, log1, by simp [buildGraph, h1]⟩
    | ok lp =>
      rw [hr] at h1
      have htr : t ∈ rest := by
        rcases List.mem_cons.mp ht with rfl | h
        · rw [hr] at hm; exact absurd hm (by simp)
        · exact h
      obtain ⟨m', t', ht', hm', c2, log2, h2⟩ :=
        buildGraph_error_of rest c1 hc1 t m htr hm
      exact ⟨m', t', List.mem_cons_of_mem _ ht', hm', c2, log1 ++ log2,
        by simp [buildGraph, h1, h2]⟩

lemma buildGraph_log_mem {resolve : String → Except String (List String)} :
    ∀ (P : List String) (c : Cache) {e : String × Bool},
      e ∈ (buildGraph resolve P c).2.2 → e.1 ∈ P
  | [], c, e, he => by simp [buildGraph] at he
  | p :: rest, c, e, he => by
    rcases hg : get_outbound_links resolve c p with ⟨r, c1, log1⟩
    have hlog1 : ∀ x ∈ log1, Prod.fst x = p := by
      intro x hx
      exact gol_log_mem (by rw [hg]; exact hx)
    cases r with
    | error m =>
      rw [buildGraph, hg] at he
      exact (hlog1 e he) ▸ List.mem_cons_self _ _
    | ok links =>
      rcases hb : buildGraph resolve rest c1 with ⟨r2, c2, log2⟩
      have hlog2 : e ∈ log2 → e.1 ∈ rest := by
        intro hx
        exact buildGraph_log_mem rest c1 (by rw [hb]; exact hx)
      cases r2 with
      | error m2 =>
        simp only [buildGraph, hg, hb] at he
        rcases List.mem_append.mp he with h | h
        · exact (hlog1 e h) ▸ List.mem_cons_self _ _
        · exact List.mem_cons_of_mem _ (hlog2 h)
      | ok es =>
        simp only [buildGraph, hg, hb] at he
        rcases List.mem_append.mp he with h | h
        · exact (hlog1 e h) ▸ List.mem_cons_self _ _
        · exact List.mem_cons_of_mem _ (hlog2 h)

/-! ### Cache-evolution invariants

`CacheStep c log c'` relates a cache state before an operation, the
external-call log of the operation, and the cache state after it: entries
are never evicted, a cached title causes no external call at all, at most
one successful external call per title occurs, and a successful call for a
title leaves it cached. -/

structure CacheStep (c : Cache) (log : List (String × Bool)) (c' : Cache) :
    Prop where
  mono : ∀ t, inCache c t = true → inCache c' t = true
  cached_zero : ∀ t, inCache c t = true → callCount t log = 0
  le_one : ∀ t, successCount t log ≤ 1
  succ_cached : ∀ t, 0 < successCount t log → inCache c' t = true

lemma successCount_le_callCount (t : String) (log : List (String × Bool)) :
    successCount t log ≤ callCount t log := by
  unfold successCount callCount
  apply List.countP_mono_left
  intro e _ h
  exact (Bool.and_eq_true _ _).mp h |>.1

lemma cacheStep_nil {c : Cache} : CacheStep c [] c :=
  ⟨fun _ h => h, fun _ _ => rfl, fun _ => by simp [successCount],
    fun _ h => absurd h (by simp [successCount])⟩

lemma CacheStep.comp {c c1 c2 : Cache} {log1 log2 : List (String × Bool)}
    (h1 : CacheStep c log1 c1) (h2 : CacheStep c1 log2 c2) :
    CacheStep c (log1 ++ log2) c2 := by
  refine ⟨fun t ht => h2.mono t (h1.mono t ht), ?_, ?_, ?_⟩
  · intro t ht
    have e1 := h1.cached_zero t ht
    have e2 := h2.cached_zero t (h1.mono t ht)
    unfold callCount at e1 e2 ⊢
    rw [List.countP_append, e1, e2]
  · intro t
    rcases Nat.eq_zero_or_pos (successCount t log1) with hz | hp
    · have hle := h2.le_one t
      unfold successCount at hz hle ⊢
      rw [List.countP_append, hz]
      omega
    · have hcall2 : callCount t log2 = 0 :=
        h2.cached_zero t (h1.succ_cached t hp)
      have hs2 : successCount t log2 = 0 := by
        have := successCount_le_callCount t log2
        omega
      have hle := h1.le_one t
      unfold successCount at hs2 hle ⊢
      rw [List.countP_append, hs2]
      omega
  · intro t hp
    unfold successCount at hp
    rw [List.countP_append] at hp
    rcases Nat.eq_zero_or_pos
        (List.countP (fun e => e.1 == t && e.2) log2) with hz | hp2
    · have hp1 : 0 < successCount t log1 := by unfold successCount; omega
      exact h2.mono t (h1.succ_cached t hp1)
    · exact h2.succ_cached t hp2

lemma gol_cacheStep (resolve : String → Except String (List String))
    (c : Cache) (t : String) :
    CacheStep c (get_outbound_links resolve c t).2.2
      (get_outbound_links resolve c t).2.1 := by
  cases hl : lookup c t with
  | some l =>
    simp only [get_outbound_links, hl]
    exact cacheStep_nil
  | none =>
    have hne : ∀ u, inCache c u = true → (t == u) = false := by
      intro u hu
      apply Bool.eq_false_iff.mpr
      intro hbeq
      obtain rfl : t = u := beq_iff_eq.mp hbeq
      simp [inCache, hl] at hu
    cases hr : resolve t with
    | ok links =>
      simp only [get_outbound_links, hl, hr]
      refine ⟨?_, ?_, ?_, ?_⟩
      · intro u hu
        rw [inCache_cons, hu, Bool.or_true]
      · intro u hu
        simp [callCount, List.countP_cons, hne u hu]
      · intro u
        by_cases h : (t == u) = true <;>
          simp [successCount, List.countP_cons, h]
      · intro u hp
        by_cases h : (t == u) = true
        · rw [inCache_cons, h, Bool.true_or]
        · simp [successCount, List.countP_cons, h] at hp
    | error m =>
      simp only [get_outbound_links, hl, hr]
      refine ⟨fun u hu => hu, ?_, ?_, ?_⟩
      · intro u hu
        simp [callCount, List.countP_cons, hne u hu]
      · intro u
        simp [successCount, List.countP_cons]
      · intro u hp
        simp [successCount, List.countP_cons] at hp

lemma buildGraph_cacheStep (resolve : String → Except String (List String)) :
    ∀ (P : List String) (c : Cache),
      CacheStep c (buildGraph resolve P c).2.2 (buildGraph resolve P c).2.1
  | [], _ => cacheStep_nil
  | p :: rest, c => by
    have hg := gol_cacheStep resolve c p
    rcases hge : get_outbound_links resolve c p with ⟨r, c1, log1⟩
    rw [hge] at hg
    cases r with
    | error m => simpa [buildGraph, hge] using hg
    | ok links =>
      have hb := buildGraph_cacheStep resolve rest c1
      rcases hbe : buildGraph resolve rest c1 with ⟨r2, c2, log2⟩
      rw [hbe] at hb
      cases r2 with
      | error m2 => simpa [buildGraph, hge, hbe] using hg.comp hb
      | ok es => simpa [buildGraph, hge, hbe] using hg.comp hb

lemma validate_path_cacheStep (resolve : String → Except String (List String))
    (c : Cache) (data : ResultType) :
    CacheStep c (validate_path resolve c data).2.2
      (validate_path resolve c data).2.1 := by
  cases data with
  | noPathFound => exact cacheStep_nil
  | pathFound pages =>
    have hb := buildGraph_cacheStep resolve pages c
    rcases hbe : buildGraph resolve pages c with ⟨r, c1, log⟩
    rw [hbe] at hb
    cases r with
    | error m => simpa [validate_path, hbe] using hb
    | ok es =>
      by_cases hs : is_simple_path es pages = true
      · simpa [validate_path, hbe, hs] using hb
      · simpa [validate_path, hbe, hs] using hb

lemma runValidations_cacheStep (resolve : String → Except String (List String)) :
    ∀ (reqs : List ResultType) (c : Cache),
      CacheStep c (runValidations resolve reqs c).2
        (runValidations resolve reqs c).1
  | [], _ => cacheStep_nil
  | d :: ds, c => by
    have h1 := validate_path_cacheStep resolve c d
    rcases he : validate_path resolve c d with ⟨res, c1, log1⟩
    rw [he] at h1
    have h2 := runValidations_cacheStep resolve ds c1
    rcases he2 : runValidations resolve ds c1 with ⟨c2, log2⟩
    rw [he2] at h2
    simpa [runValidations, he, he2] using h1.comp h2

/-! ### Evaluation lemmas for single-element candidates -/

lemma validate_single_eval (resolve : String → Except String (List String))
    (c : Cache) (x : String) :
    (validate_path resolve c (.pathFound [x])).1 =
      match (get_outbound_links resolve c x).1 with
      | .ok l => if l.isEmpty then .rejected "Path is not valid"
                 else .accepted (.pathFound [x])
      | .error m => .rejected m := by
  rcases hg : get_outbound_links resolve c x with ⟨r, c1, log1⟩
  cases r with
  | error m => simp [validate_path, buildGraph, hg]
  | ok l =>
    cases l with
    | nil => simp [validate_path, buildGraph, hg, is_simple_path, hasNode]
    | cons v l' =>
      simp [validate_path, buildGraph, hg, is_simple_path, hasNode]

lemma validate_single_log (resolve : String → Except String (List String))
    (c : Cache) (x : String) :
    (validate_path resolve c (.pathFound [x])).2.2 =
      (get_outbound_links resolve c x).2.2 := by
  rcases hg : get_outbound_links resolve c x with ⟨r, c1, log1⟩
  cases r with
  | error m => simp [validate_path, buildGraph, hg]
  | ok l =>
    simp only [validate_path, buildGraph, hg]
    split <;> simp

lemma gol_log_empty_iff (resolve : String → Except String (List String))
    (c : Cache) (x : String) :
    (get_outbound_links resolve c x).2.2 = [] ↔ inCache c x = true := by
  cases hl : lookup c x with
  | some l => simp [get_outbound_links, hl, inCache]
  | none =>
    cases hr : resolve x with
    | ok links => simp [get_outbound_links, hl, hr, inCache]
    | error m => simp [get_outbound_links, hl, hr, inCache]

/-! ### Claim theorems -/

/-- Claim C1, amended: a non-empty candidate with pairwise-distinct
elements in which every consecutive pair `(P[i], P[i+1])` satisfies
"`P[i+1]` is in the resolver's link set for `P[i]`" is accepted by
`validate_path`, PROVIDED additionally that every element of `P` resolves
successfully and that a single-element candidate has a non-empty link set
(the original claim fails without these provisos: `validate_path` resolves
every element, including the last one, and a singleton whose page has no
outbound links never enters the graph). -/
theorem validate_accepts_simple_linked_path
    (resolve : String → Except String (List String)) (c : Cache)
    (P : List String) (hcons : CacheConsistent resolve c)
    (hne : P ≠ []) (hnodup : P.Nodup)
    (hchain : List.Chain' (fun a b => linkedB resolve a b = true) P)
    (hres : ∀ x ∈ P, resolvesOk resolve x = true)
    (hsingle : ∀ x, P = [x] → linksOf resolve x ≠ []) :
    (validate_path resolve c (.pathFound P)).1 = .accepted (.pathFound P) := by
  obtain ⟨c', log, hb, -⟩ := buildGraph_eq_of P c hcons hres
  have hsp : is_simple_path (pathEdges resolve P) P = true := by
    cases P with
    | nil => exact absurd rfl hne
    | cons a rest =>
      cases rest with
      | nil =>
        obtain ⟨v, hv⟩ :=
          List.exists_mem_of_ne_nil _ (hsingle a rfl)
        have hmem : (a, v) ∈ pathEdges resolve [a] :=
          mem_pathEdges.mpr ⟨List.mem_singleton_self a, hv⟩
        show hasNode (pathEdges resolve [a]) a = true
        exact hasNode_of_mem_left hmem
      | cons b rest' =>
        have hchE : List.Chain'
            (fun x y => hasEdge (pathEdges resolve (a :: b :: rest')) x y = true)
            (a :: b :: rest') := by
          apply chain'_imp_of_mem hchain
          intro x y hx _ hr
          exact hasEdge_pathEdges.mpr ⟨hx, hr⟩
        exact is_simple_path_of_conditions (by simp)
          (chain'_hasEdge_all_hasNode _ (by simp) hchE) hnodup hchE
  simp [validate_path, hb, hsp]

/-- Witness for C1 at the spec scenario: the path Lindsay Lohan →
Donald Trump → Barack Obama is accepted under `resolverDemo`. -/
theorem validate_accepts_simple_linked_path_witness :
    (validate_path resolverDemo []
      (.pathFound ["Lindsay Lohan", "Donald Trump", "Barack Obama"])).1 =
      .accepted (.pathFound ["Lindsay Lohan", "Donald Trump", "Barack Obama"]) :=
  validate_accepts_simple_linked_path resolverDemo []
    ["Lindsay Lohan", "Donald Trump", "Barack Obama"]
    (fun _ _ h => absurd h (List.not_mem_nil _))
    (by decide) (by decide)
    (by
      apply List.chain'_cons.mpr
      refine ⟨by decide, ?_⟩
      apply List.chain'_cons.mpr
      exact ⟨by decide, List.chain'_singleton _⟩)
    (by decide)
    (fun x hx => absurd hx (by simp))

/-- Counterexample to C1 as stated: `["A", "B"]` is non-empty, has
pairwise-distinct elements, and its only consecutive pair is linked
(`"B"` is in the resolver's link set for `"A"`), yet `validate_path`
rejects it, because the code also resolves the final element `"B"`,
whose resolution fails. -/
theorem validate_accepts_simple_linked_path_cex :
    (["A", "B"] : List String) ≠ [] ∧ (["A", "B"] : List String).Nodup ∧
      linkedB resolverLastFails "A" "B" = true ∧
      (validate_path resolverLastFails [] (.pathFound ["A", "B"])).1 =
        .rejected "B does not match any pages" :=
  ⟨by decide, by decide, by decide, rfl⟩

/-- Claim C2: a candidate in which some title occurs more than once is
rejected by `validate_path`, regardless of edge continuity. -/
theorem validate_rejects_duplicate_vertex
    (resolve : String → Except String (List String)) (c : Cache)
    (P : List String) (h : ¬ P.Nodup) :
    ∃ r, (validate_path resolve c (.pathFound P)).1 = .rejected r := by
  rcases hb : buildGraph resolve P c with ⟨r, c1, log⟩
  cases r with
  | error m => exact ⟨m, by simp [validate_path, hb]⟩
  | ok es =>
    exact ⟨"Path is not valid",
      by simp [validate_path, hb, is_simple_path_false_of_dup h]⟩

/-- Witness for C2 at the spec scenario: `["A", "B", "A"]` is rejected
under a resolver where A links to B and B links to A, despite edge
continuity holding. -/
theorem validate_rejects_duplicate_vertex_witness :
    ¬ (["A", "B", "A"] : List String).Nodup ∧
      ∃ r, (validate_path resolverMutual []
        (.pathFound ["A", "B", "A"])).1 = .rejected r :=
  ⟨by decide,
    validate_rejects_duplicate_vertex resolverMutual [] ["A", "B", "A"]
      (by decide)⟩

/-- Claim C3: a candidate with a consecutive pair `(P[i], P[i+1])` whose
second component is not in the resolved outbound-link set of the first is
rejected by `validate_path`. -/
theorem validate_rejects_missing_edge
    (resolve : String → Except String (List String)) (c : Cache)
    (P : List String) (i : Nat) (u v : String)
    (hcons : CacheConsistent resolve c)
    (hu : P.get? i = some u) (hv : P.get? (i + 1) = some v)
    ( _hok : resolvesOk resolve u = true)
    (hmiss : linkedB resolve u v = false) :
    ∃ r, (validate_path resolve c (.pathFound P)).1 = .rejected r := by
  rcases hb : buildGraph resolve P c with ⟨r, c1, log⟩
  cases r with
  | error m => exact ⟨m, by simp [validate_path, hb]⟩
  | ok es =>
    obtain ⟨hes, -⟩ := buildGraph_ok_char P c hcons hb
    have hmem : (u, v) ∈ pairwiseEdges P :=
      get?_pair_mem_pairwiseEdges P i hu hv
    have hedge : hasEdge es u v = false := by
      rw [hes]
      refine Bool.eq_false_iff.mpr fun htrue => ?_
      have hlk := (hasEdge_pathEdges.mp htrue).2
      rw [hmiss] at hlk
      exact Bool.false_ne_true hlk
    exact ⟨"Path is not valid",
      by simp [validate_path, hb, is_simple_path_false_of_missing hmem hedge]⟩

/-- Witness for C3 at the spec scenario: `["Lindsay Lohan",
"Barack Obama"]` is rejected because there is no direct edge. -/
theorem validate_rejects_missing_edge_witness :
    (["Lindsay Lohan", "Barack Obama"] : List String).get? 0 =
        some "Lindsay Lohan" ∧
      linkedB resolverDemo "Lindsay Lohan" "Barack Obama" = false ∧
      ∃ r, (validate_path resolverDemo []
        (.pathFound ["Lindsay Lohan", "Barack Obama"])).1 = .rejected r :=
  ⟨rfl, by decide,
    validate_rejects_missing_edge resolverDemo []
      ["Lindsay Lohan", "Barack Obama"] 0 "Lindsay Lohan" "Barack Obama"
      (fun _ _ h => absurd h (List.not_mem_nil _))
      rfl rfl (by decide) (by decide)⟩

/-- Claim C4, amended: for a single-element candidate `[X]`,
`validate_path` DOES perform a link lookup for `X` (an external resolver
call whenever `X` is not already cached), and it returns `Accepted` if
and only if that lookup succeeds with a non-empty link set; otherwise
`[X]` is rejected.  (The original claim — always `Accepted`, with no
resolver call — fails on the code.) -/
theorem validate_single_element
    (resolve : String → Except String (List String)) (c : Cache)
    (x : String) :
    ((validate_path resolve c (.pathFound [x])).1 =
        .accepted (.pathFound [x]) ↔
      ∃ l, (get_outbound_links resolve c x).1 = .ok l ∧ l ≠ []) ∧
    ((validate_path resolve c (.pathFound [x])).2.2 = [] ↔
      inCache c x = true) := by
  refine ⟨?_, by rw [validate_single_log]; exact gol_log_empty_iff resolve c x⟩
  rw [validate_single_eval]
  rcases (get_outbound_links resolve c x).1 with m | l
  · simp
  · cases l with
    | nil => simp
    | cons v l' => simp

/-- Witness for C4 (amended) at a concrete input: `["Lindsay Lohan"]`
under `resolverDemo` from an empty cache. -/
theorem validate_single_element_witness :
    ((validate_path resolverDemo [] (.pathFound ["Lindsay Lohan"])).1 =
        .accepted (.pathFound ["Lindsay Lohan"]) ↔
      ∃ l, (get_outbound_links resolverDemo [] "Lindsay Lohan").1 = .ok l ∧
        l ≠ []) ∧
    ((validate_path resolverDemo [] (.pathFound ["Lindsay Lohan"])).2.2 = [] ↔
      inCache [] "Lindsay Lohan" = true) :=
  validate_single_element resolverDemo [] "Lindsay Lohan"

/-- Counterexample to C4 as stated: `"A"` resolves with an empty link
set; `validate_path` on `["A"]` performs one external resolver call
(log `[("A", true)]`) and returns `Rejected`, not `Accepted`. -/
theorem validate_single_element_cex :
    validate_path resolverEmptyLinks [] (.pathFound ["A"]) =
      (.rejected "Path is not valid", [("A", [])], [("A", true)]) := rfl

/-- Claim C5: a candidate containing a title whose resolution fails with
a `PageError` is rejected by `validate_path` with a retryable rejection
whose reason is, verbatim, a resolver error message for some unresolvable
title of the candidate (the failure is neither treated as an empty link
set nor recovered inside the validator). -/
theorem validate_surfaces_page_error
    (resolve : String → Except String (List String)) (c : Cache)
    (P : List String) (t m : String) (hcons : CacheConsistent resolve c)
    (ht : t ∈ P) (hm : resolve t = .error m) :
    ∃ m' t', t' ∈ P ∧ resolve t' = .error m' ∧
      (validate_path resolve c (.pathFound P)).1 = .rejected m' := by
  obtain ⟨m', t', ht', hm', c', log, hb⟩ :=
    buildGraph_error_of P c hcons t m ht hm
  exact ⟨m', t', ht', hm', by simp [validate_path, hb]⟩

/-- Witness for C5 at the spec scenario: validating
`["Nonexistent Page", "X"]` surfaces the resolver failure. -/
theorem validate_surfaces_page_error_witness :
    resolverDemo "Nonexistent Page" = .error "missing" ∧
      ∃ m' t', t' ∈ (["Nonexistent Page", "X"] : List String) ∧
        resolverDemo t' = .error m' ∧
        (validate_path resolverDemo []
          (.pathFound ["Nonexistent Page", "X"])).1 = .rejected m' :=
  ⟨rfl,
    validate_surfaces_page_error resolverDemo [] ["Nonexistent Page", "X"]
      "Nonexistent Page" "missing"
      (fun _ _ h => absurd h (List.not_mem_nil _))
      (List.mem_cons_self _ _) rfl⟩

/-- Claim C6: when every candidate-path member resolves, the graph
assembled by a validation call has an edge `(u, v)` iff `u` is a member
of the candidate path and `v` is in `u`'s resolved link set; every edge
endpoint (so in particular every link target) is a vertex of the graph;
and every external resolver call made during assembly is for a
candidate-path member. -/
theorem validate_graph_characterization
    (resolve : String → Except String (List String)) (c : Cache)
    (P : List String) (hcons : CacheConsistent resolve c)
    (hres : ∀ x ∈ P, resolvesOk resolve x = true) :
    ∃ es c' log, buildGraph resolve P c = (.ok es, c', log) ∧
      (∀ u v, hasEdge es u v = true ↔ (u ∈ P ∧ linkedB resolve u v = true)) ∧
      (∀ u v, hasEdge es u v = true →
        hasNode es u = true ∧ hasNode es v = true) ∧
      (∀ e ∈ log, e.1 ∈ P) := by
  obtain ⟨c', log, hb, -⟩ := buildGraph_eq_of P c hcons hres
  refine ⟨pathEdges resolve P, c', log, hb, ?_, ?_, ?_⟩
  · intro u v
    exact hasEdge_pathEdges
  · intro u v h
    have hmem := hasEdge_iff_mem.mp h
    exact ⟨hasNode_of_mem_left hmem, hasNode_of_mem_right hmem⟩
  · intro e he
    exact buildGraph_log_mem P c (by rw [hb]; exact he)

/-- Witness for C6 at the spec scenario's three-page candidate. -/
theorem validate_graph_characterization_witness :
    ∃ es c' log, buildGraph resolverDemo
        ["Lindsay Lohan", "Donald Trump", "Barack Obama"] [] =
        (.ok es, c', log) ∧
      (∀ u v, hasEdge es u v = true ↔
        (u ∈ (["Lindsay Lohan", "Donald Trump", "Barack Obama"] : List String) ∧
          linkedB resolverDemo u v = true)) ∧
      (∀ u v, hasEdge es u v = true →
        hasNode es u = true ∧ hasNode es v = true) ∧
      (∀ e ∈ log,
        e.1 ∈ (["Lindsay Lohan", "Donald Trump", "Barack Obama"] : List String)) :=
  validate_graph_characterization resolverDemo []
    ["Lindsay Lohan", "Donald Trump", "Barack Obama"]
    (fun _ _ h => absurd h (List.not_mem_nil _)) (by decide)

/-- Claim C7, amended: across any sequence of `validate_path` calls in
one process lifetime, (a) once a title has a populated cache entry, no
later lookup of it triggers any external resolver call, (b) at most one
SUCCESSFUL external resolver call happens per distinct title, and
(c) cache entries are never evicted or invalidated.  (The original
"at most one external call per distinct title" fails because
`functools.cache` does not memoize a raised exception, so a title whose
resolution fails is re-resolved externally on every lookup.) -/
theorem resolver_cache_guarantees
    (resolve : String → Except String (List String))
    (reqs : List ResultType) (c : Cache) :
    (∀ t, inCache c t = true →
      callCount t (runValidations resolve reqs c).2 = 0) ∧
    (∀ t, successCount t (runValidations resolve reqs c).2 ≤ 1) ∧
    (∀ t, inCache c t = true →
      inCache (runValidations resolve reqs c).1 t = true) :=
  ⟨(runValidations_cacheStep resolve reqs c).cached_zero,
    (runValidations_cacheStep resolve reqs c).le_one,
    (runValidations_cacheStep resolve reqs c).mono⟩

/-- Witness for C7 (amended) at a concrete run: with `"A"` already
cached, validating `["A"]` makes no external call for `"A"` and keeps
`"A"` cached. -/
theorem resolver_cache_guarantees_witness :
    callCount "A" (runValidations resolverMutual
        [.pathFound ["A"]] [("A", ["B"])]).2 = 0 ∧
    successCount "A" (runValidations resolverMutual
        [.pathFound ["A"]] [("A", ["B"])]).2 ≤ 1 ∧
    inCache (runValidations resolverMutual
        [.pathFound ["A"]] [("A", ["B"])]).1 "A" = true :=
  ⟨(resolver_cache_guarantees resolverMutual [.pathFound ["A"]]
      [("A", ["B"])]).1 "A" rfl,
    (resolver_cache_guarantees resolverMutual [.pathFound ["A"]]
      [("A", ["B"])]).2.1 "A",
    (resolver_cache_guarantees resolverMutual [.pathFound ["A"]]
      [("A", ["B"])]).2.2 "A" rfl⟩

/-- Counterexample to C7 as stated: `"A"` never resolves, so two
validations of `["A"]` from an empty cache make two external resolver
calls for the same title — the failed call populates no cache entry. -/
theorem resolver_cache_guarantees_cex :
    (runValidations resolverPageError
        [.pathFound ["A"], .pathFound ["A"]] []).2 =
      [("A", false), ("A", false)] ∧
    callCount "A" (runValidations resolverPageError
        [.pathFound ["A"], .pathFound ["A"]] []).2 = 2 :=
  ⟨rfl, rfl⟩

/-- Claim C8: the empty candidate is rejected (`"Path is not valid"`,
a retryable rejection, not an acceptance and not an error), with no
resolver call and no cache change. -/
theorem validate_empty_path_rejected
    (resolve : String → Except String (List String)) (c : Cache) :
    validate_path resolve c (.pathFound []) =
      (.rejected "Path is not valid", c, []) := rfl

/-- Claim C9: contradicted by the code.  A resolver failure that is not a
`PageError` (here a `DisambiguationError` for `"Mercury"`) is not caught
by `get_outbound_links`, so it escapes `validate_path` uncaught instead
of being normalized into a retryable rejection — evaluated at the
failing input `["Mercury", "Barack Obama"]`. -/
theorem validate_uncaught_on_non_pageerror :
    validate_path_exn wikiDisambig []
        (.pathFound ["Mercury", "Barack Obama"]) =
      (.uncaught "DisambiguationError: Mercury may refer to multiple pages",
        []) := rfl

/-- Claim C10: a `NoPathFoundResult` is passed through unchanged by
`validate_path`: accepted as-is, with no resolver call, no cache change,
and no checks applied. -/
theorem validate_noPathFound_passthrough
    (resolve : String → Except String (List String)) (c : Cache) :
    validate_path resolve c .noPathFound =
      (.accepted .noPathFound, c, []) := rfl

end Wikiracing
